import Mathlib

/-!
A shallow embedding of `calendar_sync.py` from the pim-tools repository:
one-way synchronization of calendar events from an Office 365 (Exchange)
source calendar to a Google target calendar.

The remote providers are modelled as explicit values: the Exchange fetch is
the result the paginated `calendar.view` calls would produce (an exception or
a list of events), and the Google side is a `GoogleProvider` state holding
the stored events together with an oracle of which API calls fail after the
client's internal retries (`execute(num_retries=GOOGLE_RETRIES)` either
returns a value or raises).  Python exceptions are modelled with `Except`,
`None` with `Option`, and `dict` with an insertion-ordered association list.
-/

namespace CalendarSyncModel

/-- A timezone, modelled as a fixed UTC offset in minutes. -/
structure Tz where
  offset : Int
deriving DecidableEq, Repr

/-- A timezone-aware datetime: an absolute instant (minutes since an epoch)
together with the timezone it is currently expressed in. -/
structure Time where
  stamp : Int
  tz : Tz
deriving DecidableEq, Repr

/-- `datetime.astimezone(tz)`: same instant, re-expressed in another zone. -/
def Time.astimezone (t : Time) (z : Tz) : Time :=
  { stamp := t.stamp, tz := z }

/-- `datetime.isoformat()`: a textual rendering determined by the instant and
the attached timezone (local wall-clock value plus offset). -/
def Time.isoformat (t : Time) : String :=
  toString (t.stamp + 60 * t.tz.offset) ++ "@" ++ toString t.tz.offset

/-- Python's builtin `hash` on `str`: an unspecified but deterministic (within
one process) pure function of the string, modelled as a fixed concrete
function.  No theorem below depends on its particular values, only on it
being a function of the string. -/
def pyHash (s : String) : Int :=
  s.data.foldl (fun h c => (h * 31 + Int.ofNat c.toNat) % (2 ^ 61)) 7

/-- Python `x or ''` for an optional string: `None` and `''` are falsy, so
both collapse to `''`. -/
def pyOrEmpty : Option String → String
  | some s => s
  | none => ""

/-- Python `x or None` for an optional string: `None` and `''` are falsy, so
both collapse to `None`. -/
def pyOrNone : Option String → Option String
  | some s => if s = "" then none else some s
  | none => none

/-- Python truthiness of an optional string (`if kwargs.get('description'):`). -/
def pyTruthy : Option String → Bool
  | some s => s != ""
  | none => false

/-- An Exchange calendar item as consumed by `calendar_sync.py`: `start`,
`end`, `subject`, `text_body` and the `is_all_day` flag (the trailing
underscore avoids the Lean keyword `end`). -/
structure ExchangeEvent where
  start : Time
  end_ : Time
  subject : String
  text_body : Option String
  is_all_day : Bool
deriving DecidableEq, Repr

/-- The Exchange side after `login`: the reconciliation code only uses the
local timezone `self.tz` (credentials, account and folder lookup are I/O
plumbing outside the engine). -/
structure ExchangeCalendar where
  tz : Tz
deriving DecidableEq, Repr

/-- `ExchangeCalendar.events(start, end)`: drains the daily `calendar.view`
ranges, keeping only non-all-day events; the whole body is wrapped in
`try/except`, so on any exception it logs the error and falls through,
returning `None`.  `fetch` is the combined outcome of the underlying
paginated calls: a list of events in the window, or an exception. -/
def ExchangeCalendar.events (fetch : Except String (List ExchangeEvent)) :
    Option (List ExchangeEvent) :=
  match fetch with
  | .ok evs => some (evs.filter (fun e => !e.is_all_day))
  | .error _ => none

/-- `ExchangeCalendar.fingerprint(event)`: `hash` of the `'|'`-join of the
start and end rendered in `self.tz`, the subject, and `text_body or ''`. -/
def ExchangeCalendar.fingerprint (c : ExchangeCalendar) (e : ExchangeEvent) : Int :=
  pyHash (String.intercalate "|"
    [(e.start.astimezone c.tz).isoformat,
     (e.end_.astimezone c.tz).isoformat,
     e.subject,
     pyOrEmpty e.text_body])

/-- Python exceptions the engine can raise: `TypeError` (e.g. joining `None`
into a string, iterating `None`) and provider errors raised by
`execute(num_retries=...)` after its retries are exhausted. -/
inductive PyError where
  | typeError
  | httpError (context : String)
deriving DecidableEq, Repr

/-- The `start`/`end` object of a Google event: timed events carry a
`dateTime` field; all-day events carry only a `date` field, so their
`.get('dateTime')` is `None`. -/
structure GTimeField where
  dateTime : Option String
deriving DecidableEq, Repr

/-- A Google calendar event as consumed by `calendar_sync.py`.  Provider ids
are abstracted to naturals (the code never inspects them, it only passes them
back to `delete`). -/
structure GEvent where
  id : Nat
  start : GTimeField
  end_ : GTimeField
  summary : Option String
  description : Option String
deriving DecidableEq, Repr

/-- The Google provider state, together with a failure oracle for the API
calls: `listFails` makes the paginated `events().list` chain raise after
retries, and `createFails` lists the subjects whose `events().insert` raises
after retries. -/
structure GoogleProvider where
  events : List GEvent
  nextId : Nat
  listFails : Bool
  createFails : List String
deriving DecidableEq, Repr

/-- Well-formedness of a provider state: stored ids are distinct and below
the id counter (real providers never reuse event ids). -/
def GoogleProvider.wf (p : GoogleProvider) : Prop :=
  (p.events.map GEvent.id).Nodup ∧ ∀ e ∈ p.events, e.id < p.nextId

instance (p : GoogleProvider) : Decidable p.wf := by
  unfold GoogleProvider.wf
  infer_instance

/-- Modelled from the Google Calendar v3 API: `events().list(...)` drained
over all pages either returns the stored events of the window or raises after
`num_retries` attempts. -/
def GoogleProvider.listCall (p : GoogleProvider) : Except PyError (List GEvent) :=
  if p.listFails then .error (.httpError "list") else .ok p.events

/-- Modelled from the Google Calendar v3 API: `events().insert(...)` stores
the posted body under a fresh id and echoes it back, or raises after
`num_retries` attempts. -/
def GoogleProvider.insertCall (p : GoogleProvider) (body : GEvent) :
    Except PyError (GoogleProvider × GEvent) :=
  if p.createFails.contains (pyOrEmpty body.summary) then .error (.httpError "insert")
  else
    let stored : GEvent := { body with id := p.nextId }
    .ok ({ p with events := p.events ++ [stored], nextId := p.nextId + 1 }, stored)

/-- Modelled from the Google Calendar v3 API: `events().delete(...)` removes
the addressed event; deleting an id that is no longer present yields an HTTP
error response (410 Gone), which the client raises as `HttpError` —
`num_retries` only retries transient 5xx/rate-limit failures, not this. -/
def GoogleProvider.deleteCall (p : GoogleProvider) (eventId : Nat) :
    Except PyError GoogleProvider :=
  if p.events.any (fun e => e.id == eventId) then
    .ok { p with events := p.events.filter (fun e => e.id != eventId) }
  else .error (.httpError "gone")

/-- `GoogleCalendar.events(start, end)`: drains the paginated list without
any `try/except` and without filtering all-day events; a raise propagates. -/
def GoogleCalendar.events (p : GoogleProvider) : Except PyError (List GEvent) :=
  p.listCall

/-- `GoogleCalendar.fingerprint(event)`: `hash` of the `'|'`-join of
`start.dateTime`, `end.dateTime`, `summary` and `description` (defaulted to
`''`).  The first three use plain `.get(...)`, so when any of them is absent
the `'|'.join` receives `None` and raises `TypeError`. -/
def GoogleCalendar.fingerprint (e : GEvent) : Except PyError Int :=
  match e.start.dateTime, e.end_.dateTime, e.summary with
  | some s, some en, some su =>
    .ok (pyHash (String.intercalate "|" [s, en, su, e.description.getD ""]))
  | _, _, _ => .error .typeError

/-- The body `GoogleCalendar.create` posts to `events().insert`: start/end as
`isoformat` strings, the subject as `summary`, and `description` only when
the passed keyword argument is truthy. -/
def createdEventBody (start end_ : Time) (subject : String)
    (description : Option String) : GEvent :=
  { id := 0,
    start := { dateTime := some start.isoformat },
    end_ := { dateTime := some end_.isoformat },
    summary := some subject,
    description := if pyTruthy description then description else none }

/-- `GoogleCalendar.create(start, end, subject, **kwargs)`: builds the event
body and posts it; an insert failure after retries raises (no `try/except`). -/
def GoogleCalendar.create (p : GoogleProvider) (start end_ : Time) (subject : String)
    (description : Option String) : Except PyError GoogleProvider :=
  (p.insertCall (createdEventBody start end_ subject description)).map Prod.fst

/-- `GoogleCalendar.delete(event)`: posts the delete addressed by the event's
id; any provider error raises (no `try/except`, no already-gone handling). -/
def GoogleCalendar.delete (p : GoogleProvider) (event : GEvent) :
    Except PyError GoogleProvider :=
  p.deleteCall event.id

/-- Python `dict` key membership (`fingerprint in target_events`). -/
def hasKey (m : List (Int × α)) (k : Int) : Bool :=
  m.any (fun q => k == q.1)

/-- Python `dict` insertion: an existing key keeps its position and gets the
new value, a new key is appended. -/
def dictInsert (m : List (Int × α)) (k : Int) (v : α) : List (Int × α) :=
  if hasKey m k then m.map (fun q => if k == q.1 then (k, v) else q)
  else m ++ [(k, v)]

/-- Python `del d[k]` (only ever called with a present key). -/
def removeKey (m : List (Int × α)) (k : Int) : List (Int × α) :=
  m.filter (fun q => !(k == q.1))

/-- Folding a list of key/value pairs into a `dict`, left to right. -/
def dictOfPairs (acc : List (Int × α)) : List (Int × α) → List (Int × α)
  | [] => acc
  | (k, v) :: rest => dictOfPairs (dictInsert acc k v) rest

/-- The keys of a dict, in insertion order. -/
def keys (m : List (Int × α)) : List Int :=
  m.map Prod.fst

/-- `CalendarSync.event_map` on the source side:
`{calendar.fingerprint(event): event for event in calendar.events(...)}`
over the (already fetched and filtered) Exchange events. -/
def CalendarSync.source_event_map (c : ExchangeCalendar) (evs : List ExchangeEvent) :
    List (Int × ExchangeEvent) :=
  dictOfPairs [] (evs.map (fun e => (c.fingerprint e, e)))

/-- The target-side dict comprehension, one event at a time: each
`fingerprint` call can raise, which aborts the comprehension. -/
def targetMapAux (acc : List (Int × GEvent)) :
    List GEvent → Except PyError (List (Int × GEvent))
  | [] => .ok acc
  | e :: rest =>
    match GoogleCalendar.fingerprint e with
    | .error err => .error err
    | .ok f => targetMapAux (dictInsert acc f e) rest

/-- `CalendarSync.event_map` on the target side. -/
def CalendarSync.target_event_map (evs : List GEvent) :
    Except PyError (List (Int × GEvent)) :=
  targetMapAux [] evs

/-- Which calendar an API write is issued against. -/
inductive Role where
  | source
  | target
deriving DecidableEq, Repr

/-- A write issued during a cycle: a create (with the arguments
`CalendarSync.run` passes) or a delete (addressed by provider id). -/
inductive Call where
  | create (recipient : Role) (start end_ : Time) (subject : String)
      (description : Option String)
  | delete (recipient : Role) (eventId : Nat)
deriving DecidableEq, Repr

/-- The calendar a call is addressed to. -/
def Call.recipient : Call → Role
  | .create r _ _ _ _ => r
  | .delete r _ => r

/-- The create call `CalendarSync.run` issues for an unmatched source event:
start/end re-expressed in the source calendar's timezone, the subject, and
`description = source_event.text_body or None`. -/
def createCallOf (c : ExchangeCalendar) (se : ExchangeEvent) : Call :=
  .create .target (se.start.astimezone c.tz) (se.end_.astimezone c.tz) se.subject
    (pyOrNone se.text_body)

/-- The first loop of `CalendarSync.run`: for each source entry, a matching
target fingerprint is consumed from the working copy (`del`), otherwise
`target_calendar.create` is called; a raise aborts the loop (and the cycle)
immediately.  Returns the calls issued, the provider state, the remaining
working copy of the target map, and the outcome. -/
def applyCreates (c : ExchangeCalendar) (entries : List (Int × ExchangeEvent))
    (tmap : List (Int × GEvent)) (p : GoogleProvider) :
    List Call × GoogleProvider × List (Int × GEvent) × Except PyError Unit :=
  match entries with
  | [] => ([], p, tmap, .ok ())
  | (f, se) :: rest =>
    if hasKey tmap f then
      applyCreates c rest (removeKey tmap f) p
    else
      match GoogleCalendar.create p (se.start.astimezone c.tz) (se.end_.astimezone c.tz)
          se.subject (pyOrNone se.text_body) with
      | .error err => ([createCallOf c se], p, tmap, .error err)
      | .ok p2 =>
        match applyCreates c rest tmap p2 with
        | (calls, p3, tmap3, outcome) => (createCallOf c se :: calls, p3, tmap3, outcome)

/-- The second loop of `CalendarSync.run`: `target_calendar.delete` for every
entry left in the working copy; a raise aborts the loop immediately. -/
def applyDeletes (entries : List (Int × GEvent)) (p : GoogleProvider) :
    List Call × GoogleProvider × Except PyError Unit :=
  match entries with
  | [] => ([], p, .ok ())
  | (_, te) :: rest =>
    match GoogleCalendar.delete p te with
    | .error err => ([Call.delete .target te.id], p, .error err)
    | .ok p2 =>
      match applyDeletes rest p2 with
      | (calls, p3, outcome) => (Call.delete .target te.id :: calls, p3, outcome)

instance {ε α : Type} [DecidableEq ε] [DecidableEq α] : DecidableEq (Except ε α) := fun a b =>
  match a, b with
  | .ok x, .ok y =>
    if h : x = y then .isTrue (by rw [h]) else .isFalse (fun hc => h (Except.ok.inj hc))
  | .error x, .error y =>
    if h : x = y then .isTrue (by rw [h]) else .isFalse (fun hc => h (Except.error.inj hc))
  | .ok _, .error _ => .isFalse (by simp)
  | .error _, .ok _ => .isFalse (by simp)

/-- The observable result of one `CalendarSync.run` cycle: the write calls
issued against the providers, the target provider state afterwards, the
outcome (`error` = an uncaught Python exception propagated out of `run`), and
the error-level log lines. -/
structure CycleResult where
  calls : List Call
  provider : GoogleProvider
  outcome : Except PyError Unit
  log : List String
deriving DecidableEq, Repr

/-- One cycle of `CalendarSync.run` (lines 195-215).  Notes tied to the
source: when `ExchangeCalendar.events` swallows its exception it logs an
error and returns `None`, and `event_map` then iterates `None`, raising
`TypeError` — so the `if source_events == None: return` guard on line 201 is
never reached.  The Google fetch and the target-side fingerprints raise
directly, so the guard on line 203 is equally unreachable.  Debug-level log
lines are not modelled, error-level ones are. -/
def CalendarSync.run (c : ExchangeCalendar) (sourceFetch : Except String (List ExchangeEvent))
    (p : GoogleProvider) : CycleResult :=
  match ExchangeCalendar.events sourceFetch with
  | none =>
    { calls := [], provider := p, outcome := .error .typeError,
      log := ["Failed to fetch Office 365 events"] }
  | some sevs =>
    match GoogleCalendar.events p with
    | .error err => { calls := [], provider := p, outcome := .error err, log := [] }
    | .ok tevs =>
      match CalendarSync.target_event_map tevs with
      | .error err => { calls := [], provider := p, outcome := .error err, log := [] }
      | .ok target_events =>
        match applyCreates c (CalendarSync.source_event_map c sevs) target_events p with
        | (ccalls, p1, _, .error err) =>
          { calls := ccalls, provider := p1, outcome := .error err, log := [] }
        | (ccalls, p1, remaining, .ok _) =>
          match applyDeletes remaining p1 with
          | (dcalls, p2, outcome) =>
            { calls := ccalls ++ dcalls, provider := p2, outcome := outcome, log := [] }

/-- The `schedule(interval)` decorator over `sched.scheduler`: `periodic`
first enters the next occurrence (deadline = its own start time plus the
interval) and then runs the action synchronously; `scheduler.run` executes
the queue sequentially on the single worker thread, sleeping until a deadline
when it is early and running immediately when it is late.  Given the cycle
durations, this computes each cycle's `(start, finish)` span. -/
def cycleSpans (interval t0 : Nat) : List Nat → List (Nat × Nat)
  | [] => []
  | d :: ds => (t0, t0 + d) :: cycleSpans interval (max (t0 + d) (t0 + interval)) ds

/-- How many cycles the `schedule(interval)` loop actually executes, given
the planned outcome of each successive cycle: `periodic` does not catch
exceptions, and `sched.scheduler.run` propagates a raise out of the loop (the
worker thread dies), so cycles after the first raising one never run. -/
def executedCycleCount : List (Except PyError Unit) → Nat
  | [] => 0
  | .ok _ :: rest => executedCycleCount rest + 1
  | .error _ :: _ => 1

/-! ### Lemmas about the `dict` model -/

theorem hasKey_iff {α : Type} (m : List (Int × α)) (k : Int) :
    hasKey m k = true ↔ k ∈ keys m := by
  simp only [hasKey, List.any_eq_true, beq_iff_eq, keys, List.mem_map]
  exact ⟨fun ⟨q, hq, h⟩ => ⟨q, hq, h.symm⟩, fun ⟨q, hq, h⟩ => ⟨q, hq, h.symm⟩⟩

theorem hasKey_eq_false_iff {α : Type} (m : List (Int × α)) (k : Int) :
    hasKey m k = false ↔ k ∉ keys m := by
  rw [← Bool.not_eq_true, not_iff_not]
  exact hasKey_iff m k

theorem keys_append {α : Type} (m m' : List (Int × α)) :
    keys (m ++ m') = keys m ++ keys m' := by
  simp [keys]

theorem keys_dictInsert_of_mem {α : Type} {m : List (Int × α)} {k : Int} (v : α)
    (h : hasKey m k = true) : keys (dictInsert m k v) = keys m := by
  simp only [dictInsert, if_pos h, keys, List.map_map]
  apply List.map_congr_left
  intro q _
  by_cases hkq : k = q.1 <;> simp [Function.comp, hkq]

theorem keys_dictInsert_of_not_mem {α : Type} {m : List (Int × α)} {k : Int} (v : α)
    (h : hasKey m k = false) : keys (dictInsert m k v) = keys m ++ [k] := by
  simp [dictInsert, h, keys]

theorem mem_keys_dictInsert {α : Type} {m : List (Int × α)} {k k' : Int} {v : α} :
    k' ∈ keys (dictInsert m k v) ↔ k' ∈ keys m ∨ k' = k := by
  cases h : hasKey m k with
  | true =>
    rw [keys_dictInsert_of_mem v h]
    constructor
    · exact Or.inl
    · rintro (hm | rfl)
      · exact hm
      · exact (hasKey_iff m k').mp h
  | false =>
    rw [keys_dictInsert_of_not_mem v h]
    simp

theorem nodup_keys_dictInsert {α : Type} {m : List (Int × α)} (k : Int) (v : α)
    (h : (keys m).Nodup) : (keys (dictInsert m k v)).Nodup := by
  cases hk : hasKey m k with
  | true => rw [keys_dictInsert_of_mem v hk]; exact h
  | false =>
    rw [keys_dictInsert_of_not_mem v hk, List.nodup_append]
    refine ⟨h, List.nodup_singleton k, ?_⟩
    intro a ha hb
    rw [List.mem_singleton] at hb
    subst hb
    exact absurd ha ((hasKey_eq_false_iff m a).mp hk)

theorem mem_dictInsert {α : Type} {m : List (Int × α)} {k : Int} {v : α} {x : Int × α}
    (h : x ∈ dictInsert m k v) : x ∈ m ∨ x = (k, v) := by
  by_cases hk : hasKey m k = true
  · simp only [dictInsert, if_pos hk, List.mem_map] at h
    obtain ⟨q, hq, hx⟩ := h
    by_cases hkq : k = q.1
    · rw [if_pos (beq_iff_eq.mpr hkq)] at hx
      exact Or.inr hx.symm
    · rw [if_neg (by simpa using hkq)] at hx
      exact Or.inl (hx ▸ hq)
  · rw [Bool.not_eq_true] at hk
    simp only [dictInsert, hk, Bool.false_eq_true, if_neg, List.mem_append,
      List.mem_singleton] at h
    simpa using h

theorem mem_keys_dictOfPairs {α : Type} (l : List (Int × α)) (acc : List (Int × α)) (k' : Int) :
    k' ∈ keys (dictOfPairs acc l) ↔ k' ∈ keys acc ∨ k' ∈ keys l := by
  induction l generalizing acc with
  | nil => simp [dictOfPairs, keys]
  | cons x rest ih =>
    obtain ⟨k, v⟩ := x
    rw [dictOfPairs, ih, mem_keys_dictInsert]
    simp only [keys, List.map_cons, List.mem_cons]
    tauto

theorem nodup_keys_dictOfPairs {α : Type} (l : List (Int × α)) (acc : List (Int × α))
    (h : (keys acc).Nodup) : (keys (dictOfPairs acc l)).Nodup := by
  induction l generalizing acc with
  | nil => exact h
  | cons x rest ih =>
    obtain ⟨k, v⟩ := x
    exact ih _ (nodup_keys_dictInsert k v h)

theorem mem_dictOfPairs {α : Type} {l : List (Int × α)} {acc : List (Int × α)} {x : Int × α}
    (h : x ∈ dictOfPairs acc l) : x ∈ acc ∨ x ∈ l := by
  induction l generalizing acc with
  | nil => exact Or.inl h
  | cons y rest ih =>
    obtain ⟨k, v⟩ := y
    rw [dictOfPairs] at h
    rcases ih h with hacc | hrest
    · rcases mem_dictInsert hacc with hm | rfl
      · exact Or.inl hm
      · exact Or.inr (List.mem_cons_self _ _)
    · exact Or.inr (List.mem_cons_of_mem _ hrest)

theorem dictOfPairs_eq_append {α : Type} (l : List (Int × α)) (acc : List (Int × α))
    (h : (keys acc ++ keys l).Nodup) : dictOfPairs acc l = acc ++ l := by
  induction l generalizing acc with
  | nil => simp [dictOfPairs]
  | cons x rest ih =>
    obtain ⟨k, v⟩ := x
    have hknotacc : k ∉ keys acc := by
      rw [List.nodup_append] at h
      intro hk
      exact h.2.2 hk (by simp [keys])
    have hins : dictInsert acc k v = acc ++ [(k, v)] := by
      simp [dictInsert, (hasKey_eq_false_iff acc k).mpr hknotacc]
    rw [dictOfPairs, hins, ih]
    · simp
    · rw [keys_append]
      have : keys acc ++ keys ((k, v) :: rest) = (keys acc ++ keys [(k, v)]) ++ keys rest := by
        simp [keys]
      rw [this] at h
      exact h

theorem hasKey_cons {α : Type} (q : Int × α) (m : List (Int × α)) (k : Int) :
    hasKey (q :: m) k = ((k == q.1) || hasKey m k) := rfl

theorem hasKey_removeKey {α : Type} {m : List (Int × α)} {f k : Int} (h : k ≠ f) :
    hasKey (removeKey m f) k = hasKey m k := by
  unfold removeKey
  induction m with
  | nil => rfl
  | cons q rest ih =>
    rw [List.filter_cons]
    by_cases hfq : f = q.1
    · rw [if_neg (by simp [hfq])]
      rw [hasKey_cons, beq_eq_false_iff_ne.mpr (hfq ▸ h), Bool.false_or]
      exact ih
    · rw [if_pos (by simp [hfq])]
      rw [hasKey_cons, hasKey_cons, ih]

/-! ### Lemmas about the event maps -/

theorem nodup_keys_source_event_map (c : ExchangeCalendar) (evs : List ExchangeEvent) :
    (keys (CalendarSync.source_event_map c evs)).Nodup :=
  nodup_keys_dictOfPairs _ _ (by simp [keys])

theorem mem_source_event_map {c : ExchangeCalendar} {evs : List ExchangeEvent}
    {x : Int × ExchangeEvent} (h : x ∈ CalendarSync.source_event_map c evs) :
    x.2 ∈ evs ∧ c.fingerprint x.2 = x.1 := by
  rcases mem_dictOfPairs h with hacc | hmem
  · simp at hacc
  · rw [List.mem_map] at hmem
    obtain ⟨e, he, hx⟩ := hmem
    subst hx
    exact ⟨he, rfl⟩

theorem mem_keys_source_event_map {c : ExchangeCalendar} {evs : List ExchangeEvent} {k : Int} :
    k ∈ keys (CalendarSync.source_event_map c evs) ↔ ∃ e ∈ evs, c.fingerprint e = k := by
  rw [CalendarSync.source_event_map, mem_keys_dictOfPairs]
  simp [keys, List.mem_map]

/-- The sequence of `(fingerprint, event)` pairs the target-side dict
comprehension inserts, before `dict` key collapsing; an exception in any
`fingerprint` call aborts it at that point. -/
def targetPairs : List GEvent → Except PyError (List (Int × GEvent))
  | [] => .ok []
  | e :: rest =>
    match GoogleCalendar.fingerprint e with
    | .error err => .error err
    | .ok f => (targetPairs rest).map (fun l => (f, e) :: l)

theorem targetMapAux_eq (evs : List GEvent) :
    ∀ acc, targetMapAux acc evs = (targetPairs evs).map (dictOfPairs acc) := by
  induction evs with
  | nil => intro acc; rfl
  | cons e rest ih =>
    intro acc
    cases hf : GoogleCalendar.fingerprint e with
    | error err => simp [targetMapAux, targetPairs, hf, Except.map]
    | ok f =>
      simp only [targetMapAux, targetPairs, hf]
      rw [ih (dictInsert acc f e)]
      cases targetPairs rest with
      | error err => rfl
      | ok l => rfl

theorem targetPairs_snd {evs : List GEvent} {pr : List (Int × GEvent)}
    (h : targetPairs evs = .ok pr) : pr.map Prod.snd = evs := by
  induction evs generalizing pr with
  | nil =>
    rw [targetPairs] at h
    injection h with h
    rw [← h]
    rfl
  | cons e rest ih =>
    rw [targetPairs] at h
    cases hf : GoogleCalendar.fingerprint e with
    | error err => rw [hf] at h; exact absurd h (by simp)
    | ok f =>
      rw [hf] at h
      cases htp : targetPairs rest with
      | error err => rw [htp] at h; exact absurd h (by simp [Except.map])
      | ok l =>
        rw [htp] at h
        simp only [Except.map] at h
        injection h with h
        rw [← h, List.map_cons, ih htp]

theorem targetPairs_mem {evs : List GEvent} {pr : List (Int × GEvent)}
    (h : targetPairs evs = .ok pr) {x : Int × GEvent} (hx : x ∈ pr) :
    GoogleCalendar.fingerprint x.2 = .ok x.1 := by
  induction evs generalizing pr with
  | nil =>
    rw [targetPairs] at h
    injection h with h
    rw [← h] at hx
    exact absurd hx (List.not_mem_nil x)
  | cons e rest ih =>
    rw [targetPairs] at h
    cases hf : GoogleCalendar.fingerprint e with
    | error err => rw [hf] at h; exact absurd h (by simp)
    | ok f =>
      rw [hf] at h
      cases htp : targetPairs rest with
      | error err => rw [htp] at h; exact absurd h (by simp [Except.map])
      | ok l =>
        rw [htp] at h
        simp only [Except.map] at h
        injection h with h
        rw [← h] at hx
        rcases List.mem_cons.mp hx with rfl | hxl
        · exact hf
        · exact ih htp hxl

theorem target_event_map_of_nodup {evs : List GEvent} {pr : List (Int × GEvent)}
    (h : targetPairs evs = .ok pr) (hnd : (keys pr).Nodup) :
    CalendarSync.target_event_map evs = .ok pr := by
  rw [CalendarSync.target_event_map, targetMapAux_eq, h]
  simp only [Except.map]
  rw [dictOfPairs_eq_append pr [] (by simpa [keys] using hnd)]
  rfl

theorem gfp_error {e : GEvent} {err : PyError}
    (h : GoogleCalendar.fingerprint e = .error err) : err = .typeError := by
  unfold GoogleCalendar.fingerprint at h
  split at h
  · exact absurd h (by simp)
  · injection h with h
    exact h.symm

theorem targetMapAux_error {evs : List GEvent} {e : GEvent} (he : e ∈ evs)
    (hf : GoogleCalendar.fingerprint e = .error .typeError) :
    ∀ acc, targetMapAux acc evs = .error .typeError := by
  induction evs with
  | nil => exact absurd he (List.not_mem_nil e)
  | cons e0 rest ih =>
    intro acc
    rw [targetMapAux]
    cases hf0 : GoogleCalendar.fingerprint e0 with
    | error err => rw [gfp_error hf0]
    | ok f =>
      rcases List.mem_cons.mp he with rfl | hmem
      · rw [hf0] at hf; exact absurd hf (by simp)
      · exact ih hmem _

theorem target_event_map_error {evs : List GEvent} {e : GEvent} (he : e ∈ evs)
    (hf : GoogleCalendar.fingerprint e = .error .typeError) :
    CalendarSync.target_event_map evs = .error .typeError :=
  targetMapAux_error he hf []

/-- The fingerprint a created event carries at the target equals the Exchange
fingerprint of the source event it was created from: both hash the same
`'|'`-joined string. -/
theorem fingerprint_created (c : ExchangeCalendar) (se : ExchangeEvent) (n : Nat) :
    GoogleCalendar.fingerprint
      { createdEventBody (se.start.astimezone c.tz) (se.end_.astimezone c.tz)
          se.subject (pyOrNone se.text_body) with id := n }
      = .ok (ExchangeCalendar.fingerprint c se) := by
  rcases htb : se.text_body with _ | s
  · simp [GoogleCalendar.fingerprint, createdEventBody, ExchangeCalendar.fingerprint,
      pyOrNone, pyTruthy, pyOrEmpty, htb]
  · by_cases hs : s = ""
    · subst hs
      simp [GoogleCalendar.fingerprint, createdEventBody, ExchangeCalendar.fingerprint,
        pyOrNone, pyTruthy, pyOrEmpty, htb]
    · simp [GoogleCalendar.fingerprint, createdEventBody, ExchangeCalendar.fingerprint,
        pyOrNone, pyTruthy, pyOrEmpty, htb, hs]

/-! ### Characterization of the diff/apply loops -/

/-- The events a run of successful creates materializes at the provider for a
list of unmatched source entries, with consecutive fresh ids from `n`. -/
def storedOf (c : ExchangeCalendar) : List (Int × ExchangeEvent) → Nat → List GEvent
  | [], _ => []
  | (_, se) :: rest, n =>
    { createdEventBody (se.start.astimezone c.tz) (se.end_.astimezone c.tz)
        se.subject (pyOrNone se.text_body) with id := n } :: storedOf c rest (n + 1)

theorem storedOf_ids (c : ExchangeCalendar) (l : List (Int × ExchangeEvent)) (n : Nat) :
    (storedOf c l n).map GEvent.id = List.range' n l.length := by
  induction l generalizing n with
  | nil => rfl
  | cons x rest ih =>
    obtain ⟨f, se⟩ := x
    rw [storedOf, List.map_cons, List.length_cons, List.range'_succ, ih]

theorem storedOf_length (c : ExchangeCalendar) (l : List (Int × ExchangeEvent)) (n : Nat) :
    (storedOf c l n).length = l.length := by
  have := congrArg List.length (storedOf_ids c l n)
  simpa using this

theorem applyCreates_ok (c : ExchangeCalendar) (entries : List (Int × ExchangeEvent))
    (tmap : List (Int × GEvent)) (p : GoogleProvider)
    (hnd : (keys entries).Nodup)
    (hok : ∀ x ∈ entries, hasKey tmap x.1 = false →
      p.createFails.contains x.2.subject = false) :
    applyCreates c entries tmap p =
      ((entries.filter (fun x => !(hasKey tmap x.1))).map (fun x => createCallOf c x.2),
       { p with
          events := p.events ++
            storedOf c (entries.filter (fun x => !(hasKey tmap x.1))) p.nextId,
          nextId := p.nextId + (entries.filter (fun x => !(hasKey tmap x.1))).length },
       tmap.filter (fun q => !(hasKey entries q.1)),
       .ok ()) := by
  induction entries generalizing tmap p with
  | nil =>
    simp [applyCreates, storedOf, hasKey]
  | cons x rest ih =>
    obtain ⟨f, se⟩ := x
    have hndf : f ∉ keys rest := by
      simp only [keys, List.map_cons, List.nodup_cons] at hnd
      exact hnd.1
    have hndr : (keys rest).Nodup := by
      simp only [keys, List.map_cons, List.nodup_cons] at hnd
      exact hnd.2
    have hne : ∀ y ∈ rest, y.1 ≠ f := by
      intro y hy hy1
      exact hndf (hy1 ▸ List.mem_map_of_mem Prod.fst hy)
    cases hmatch : hasKey tmap f with
    | true =>
      have hok' : ∀ y ∈ rest, hasKey (removeKey tmap f) y.1 = false →
          p.createFails.contains y.2.subject = false := by
        intro y hy hky
        refine hok y (List.mem_cons_of_mem _ hy) ?_
        rwa [hasKey_removeKey (hne y hy)] at hky
      have hfilter : rest.filter (fun y => !(hasKey (removeKey tmap f) y.1)) =
          rest.filter (fun y => !(hasKey tmap y.1)) :=
        List.filter_congr (fun y hy => by rw [hasKey_removeKey (hne y hy)])
      have hrhsfilter : ((f, se) :: rest).filter (fun y => !(hasKey tmap y.1)) =
          rest.filter (fun y => !(hasKey tmap y.1)) := by
        rw [List.filter_cons, if_neg (by simp [hmatch])]
      have hremaining : (removeKey tmap f).filter (fun q => !(hasKey rest q.1)) =
          tmap.filter (fun q => !(hasKey ((f, se) :: rest) q.1)) := by
        rw [removeKey, List.filter_filter]
        refine List.filter_congr (fun q _ => ?_)
        rw [hasKey_cons, Bool.not_or, Bool.and_comm]
        have : (q.1 == f) = (f == q.1) := Bool.beq_comm
        rw [this]
      simp only [applyCreates, if_pos hmatch]
      rw [ih (removeKey tmap f) p hndr hok', hfilter, hrhsfilter, hremaining]
    | false =>
      have hcontains : p.createFails.contains se.subject = false :=
        hok (f, se) (List.mem_cons_self _ _) hmatch
      have hcreate : GoogleCalendar.create p (se.start.astimezone c.tz)
          (se.end_.astimezone c.tz) se.subject (pyOrNone se.text_body) =
          .ok { p with
            events := p.events ++
              [{ createdEventBody (se.start.astimezone c.tz) (se.end_.astimezone c.tz)
                  se.subject (pyOrNone se.text_body) with id := p.nextId }],
            nextId := p.nextId + 1 } := by
        simp only [GoogleCalendar.create, GoogleProvider.insertCall]
        rw [show pyOrEmpty (createdEventBody (se.start.astimezone c.tz)
          (se.end_.astimezone c.tz) se.subject (pyOrNone se.text_body)).summary =
          se.subject from rfl]
        rw [hcontains, if_neg (by simp)]
        rfl
      have hok' : ∀ y ∈ rest, hasKey tmap y.1 = false →
          ({ p with
              events := p.events ++
                [{ createdEventBody (se.start.astimezone c.tz) (se.end_.astimezone c.tz)
                    se.subject (pyOrNone se.text_body) with id := p.nextId }],
              nextId := p.nextId + 1 } : GoogleProvider).createFails.contains y.2.subject
            = false := by
        intro y hy hky
        exact hok y (List.mem_cons_of_mem _ hy) hky
      have hremaining : tmap.filter (fun q => !(hasKey rest q.1)) =
          tmap.filter (fun q => !(hasKey ((f, se) :: rest) q.1)) := by
        refine List.filter_congr (fun q hq => ?_)
        have hq1 : (q.1 == f) = false := by
          refine beq_eq_false_iff_ne.mpr ?_
          intro hq1f
          exact absurd (hq1f ▸ List.mem_map_of_mem Prod.fst hq)
            ((hasKey_eq_false_iff tmap f).mp hmatch)
        rw [hasKey_cons, hq1, Bool.false_or]
      have hnotc : ¬(hasKey tmap f = true) := by simp [hmatch]
      have hfiltercons : ((f, se) :: rest).filter (fun y => !(hasKey tmap y.1)) =
          (f, se) :: rest.filter (fun y => !(hasKey tmap y.1)) := by
        rw [List.filter_cons, if_pos (by simp [hmatch])]
      have hprov : ({ p with
          events := (p.events ++
              [{ createdEventBody (se.start.astimezone c.tz) (se.end_.astimezone c.tz)
                  se.subject (pyOrNone se.text_body) with id := p.nextId }]) ++
            storedOf c (rest.filter (fun x => !(hasKey tmap x.1))) (p.nextId + 1),
          nextId := (p.nextId + 1) +
            (rest.filter (fun x => !(hasKey tmap x.1))).length } : GoogleProvider) =
          { p with
            events := p.events ++
              ({ createdEventBody (se.start.astimezone c.tz) (se.end_.astimezone c.tz)
                  se.subject (pyOrNone se.text_body) with id := p.nextId } ::
                storedOf c (rest.filter (fun x => !(hasKey tmap x.1))) (p.nextId + 1)),
            nextId := p.nextId +
              ((rest.filter (fun x => !(hasKey tmap x.1))).length + 1) } := by
        have h1 : (p.events ++
            [{ createdEventBody (se.start.astimezone c.tz) (se.end_.astimezone c.tz)
                se.subject (pyOrNone se.text_body) with id := p.nextId }]) ++
            storedOf c (rest.filter (fun x => !(hasKey tmap x.1))) (p.nextId + 1) =
            p.events ++
              ({ createdEventBody (se.start.astimezone c.tz) (se.end_.astimezone c.tz)
                  se.subject (pyOrNone se.text_body) with id := p.nextId } ::
                storedOf c (rest.filter (fun x => !(hasKey tmap x.1))) (p.nextId + 1)) := by
          simp
        have h2 : (p.nextId + 1) + (rest.filter (fun x => !(hasKey tmap x.1))).length =
            p.nextId + ((rest.filter (fun x => !(hasKey tmap x.1))).length + 1) := by
          omega
        rw [h1, h2]
      simp only [applyCreates, if_neg hnotc, hcreate, ih tmap _ hndr hok', hfiltercons,
        hremaining, List.map_cons, storedOf, List.length_cons]
      rw [hprov]

theorem applyDeletes_ok (entries : List (Int × GEvent)) (p : GoogleProvider)
    (hpres : ∀ x ∈ entries, ∃ e ∈ p.events, e.id = x.2.id)
    (hnd : (entries.map (fun x => x.2.id)).Nodup) :
    applyDeletes entries p =
      (entries.map (fun x => Call.delete .target x.2.id),
       { p with events :=
          p.events.filter (fun e => !(entries.any (fun x => x.2.id == e.id))) },
       .ok ()) := by
  induction entries generalizing p with
  | nil => simp [applyDeletes]
  | cons x rest ih =>
    obtain ⟨f, te⟩ := x
    have hpresent : p.events.any (fun e => e.id == te.id) = true := by
      obtain ⟨e, he, hid⟩ := hpres (f, te) (List.mem_cons_self _ _)
      exact List.any_eq_true.mpr ⟨e, he, beq_iff_eq.mpr hid⟩
    have hdel : GoogleCalendar.delete p te =
        .ok { p with events := p.events.filter (fun e => e.id != te.id) } := by
      simp only [GoogleCalendar.delete, GoogleProvider.deleteCall, if_pos hpresent]
    have hne : ∀ y ∈ rest, y.2.id ≠ te.id := by
      simp only [List.map_cons, List.nodup_cons] at hnd
      intro y hy hid
      exact hnd.1 (hid ▸ List.mem_map_of_mem (fun x => x.2.id) hy)
    have hndr : (rest.map (fun x => x.2.id)).Nodup := by
      simp only [List.map_cons, List.nodup_cons] at hnd
      exact hnd.2
    have hpres' : ∀ y ∈ rest,
        ∃ e ∈ p.events.filter (fun e => e.id != te.id), e.id = y.2.id := by
      intro y hy
      obtain ⟨e, he, hid⟩ := hpres y (List.mem_cons_of_mem _ hy)
      refine ⟨e, List.mem_filter.mpr ⟨he, ?_⟩, hid⟩
      rw [bne_iff_ne, hid]
      exact hne y hy
    have hev : (p.events.filter (fun e => e.id != te.id)).filter
        (fun e => !(rest.any (fun x => x.2.id == e.id))) =
        p.events.filter (fun e => !(((f, te) :: rest).any (fun x => x.2.id == e.id))) := by
      rw [List.filter_filter]
      refine List.filter_congr (fun e _ => ?_)
      have hcomm : (e.id == te.id) = (te.id == e.id) := Bool.beq_comm
      simp [List.any_cons, Bool.not_or, Bool.and_comm, bne, hcomm]
    simp only [applyDeletes, hdel,
      ih { p with events := p.events.filter (fun e => e.id != te.id) } hpres' hndr,
      List.map_cons]
    rw [hev]

theorem applyCreates_fail (c : ExchangeCalendar) (entries : List (Int × ExchangeEvent))
    (tmap : List (Int × GEvent)) (p : GoogleProvider)
    (hnd : (keys entries).Nodup)
    {pre : List (Int × ExchangeEvent)} {fe : Int × ExchangeEvent}
    {post : List (Int × ExchangeEvent)}
    (hsplit : entries.filter (fun x => !(hasKey tmap x.1)) = pre ++ fe :: post)
    (hpre : ∀ y ∈ pre, p.createFails.contains y.2.subject = false)
    (hfe : p.createFails.contains fe.2.subject = true) :
    (applyCreates c entries tmap p).1 =
      pre.map (fun x => createCallOf c x.2) ++ [createCallOf c fe.2] ∧
    (applyCreates c entries tmap p).2.2.2 = .error (.httpError "insert") := by
  induction entries generalizing tmap p pre with
  | nil => exact absurd hsplit (by simp)
  | cons x rest ih =>
    obtain ⟨f, se⟩ := x
    have hndf : f ∉ keys rest := by
      simp only [keys, List.map_cons, List.nodup_cons] at hnd
      exact hnd.1
    have hndr : (keys rest).Nodup := by
      simp only [keys, List.map_cons, List.nodup_cons] at hnd
      exact hnd.2
    have hne : ∀ y ∈ rest, y.1 ≠ f := by
      intro y hy hy1
      exact hndf (hy1 ▸ List.mem_map_of_mem Prod.fst hy)
    cases hmatch : hasKey tmap f with
    | true =>
      have hfilter : rest.filter (fun y => !(hasKey (removeKey tmap f) y.1)) =
          rest.filter (fun y => !(hasKey tmap y.1)) :=
        List.filter_congr (fun y hy => by rw [hasKey_removeKey (hne y hy)])
      have hsplit' : rest.filter (fun y => !(hasKey (removeKey tmap f) y.1)) =
          pre ++ fe :: post := by
        rw [hfilter]
        rw [List.filter_cons, if_neg (by simp [hmatch])] at hsplit
        exact hsplit
      simp only [applyCreates, if_pos hmatch]
      exact ih (removeKey tmap f) p hndr hsplit' hpre hfe
    | false =>
      have hnotc : ¬(hasKey tmap f = true) := by simp [hmatch]
      rw [List.filter_cons, if_pos (by simp [hmatch])] at hsplit
      cases pre with
      | nil =>
        simp only [List.nil_append] at hsplit
        obtain ⟨h1, h2⟩ := List.cons.inj hsplit
        subst h1
        have hfe2 : p.createFails.contains se.subject = true := hfe
        have hcreate : GoogleCalendar.create p (se.start.astimezone c.tz)
            (se.end_.astimezone c.tz) se.subject (pyOrNone se.text_body) =
            .error (.httpError "insert") := by
          simp only [GoogleCalendar.create, GoogleProvider.insertCall]
          rw [show pyOrEmpty (createdEventBody (se.start.astimezone c.tz)
            (se.end_.astimezone c.tz) se.subject (pyOrNone se.text_body)).summary =
            se.subject from rfl]
          rw [if_pos hfe2]
          rfl
        simp [applyCreates, if_neg hnotc, hcreate]
      | cons y pre' =>
        rw [List.cons_append] at hsplit
        obtain ⟨h1, hsplit'⟩ := List.cons.inj hsplit
        subst h1
        have hcontains : p.createFails.contains se.subject = false :=
          hpre (f, se) (List.mem_cons_self _ _)
        have hcreate : GoogleCalendar.create p (se.start.astimezone c.tz)
            (se.end_.astimezone c.tz) se.subject (pyOrNone se.text_body) =
            .ok { p with
              events := p.events ++
                [{ createdEventBody (se.start.astimezone c.tz) (se.end_.astimezone c.tz)
                    se.subject (pyOrNone se.text_body) with id := p.nextId }],
              nextId := p.nextId + 1 } := by
          simp only [GoogleCalendar.create, GoogleProvider.insertCall]
          rw [show pyOrEmpty (createdEventBody (se.start.astimezone c.tz)
            (se.end_.astimezone c.tz) se.subject (pyOrNone se.text_body)).summary =
            se.subject from rfl]
          rw [hcontains, if_neg (by simp)]
          rfl
        have hpre' : ∀ z ∈ pre',
            ({ p with
              events := p.events ++
                [{ createdEventBody (se.start.astimezone c.tz) (se.end_.astimezone c.tz)
                    se.subject (pyOrNone se.text_body) with id := p.nextId }],
              nextId := p.nextId + 1 } : GoogleProvider).createFails.contains z.2.subject
              = false := by
          intro z hz
          exact hpre z (List.mem_cons_of_mem _ hz)
        obtain ⟨ihcalls, ihoutcome⟩ := ih tmap _ hndr hsplit' hpre' hfe
        rcases ht : applyCreates c rest tmap ({ p with
            events := p.events ++
              [{ createdEventBody (se.start.astimezone c.tz) (se.end_.astimezone c.tz)
                  se.subject (pyOrNone se.text_body) with id := p.nextId }],
            nextId := p.nextId + 1 } : GoogleProvider) with ⟨calls2, p3, tmap3, outcome2⟩
        rw [ht] at ihcalls ihoutcome
        simp only [applyCreates, if_neg hnotc, hcreate, ht]
        constructor
        · simp only at ihcalls
          rw [List.map_cons, List.cons_append]
          simp [ihcalls]
        · simp only at ihoutcome
          simpa using ihoutcome

/-! ### Characterization of a successful cycle -/

/-- The source-map entries whose fingerprint is absent from the target pair
list: exactly the entries the first loop of `run` creates. -/
def unmatchedSource (c : ExchangeCalendar) (sevs : List ExchangeEvent)
    (pr : List (Int × GEvent)) : List (Int × ExchangeEvent) :=
  (CalendarSync.source_event_map c (sevs.filter (fun e => !e.is_all_day))).filter
    (fun x => !(hasKey pr x.1))

/-- The target-map entries whose fingerprint is absent from the source map:
exactly the entries the second loop of `run` deletes. -/
def staleTarget (c : ExchangeCalendar) (sevs : List ExchangeEvent)
    (pr : List (Int × GEvent)) : List (Int × GEvent) :=
  pr.filter (fun q =>
    !(hasKey (CalendarSync.source_event_map c (sevs.filter (fun e => !e.is_all_day))) q.1))

theorem google_events_ok {p : GoogleProvider} (h : p.listFails = false) :
    GoogleCalendar.events p = .ok p.events := by
  simp [GoogleCalendar.events, GoogleProvider.listCall, h]

theorem mem_storedOf_id {c : ExchangeCalendar} {l : List (Int × ExchangeEvent)} {n : Nat}
    {e : GEvent} (he : e ∈ storedOf c l n) : n ≤ e.id ∧ e.id < n + l.length := by
  have hmem : e.id ∈ (storedOf c l n).map GEvent.id := List.mem_map_of_mem _ he
  rw [storedOf_ids] at hmem
  exact List.mem_range'_1.mp hmem

/-- One `run` cycle in the all-success case (both fetches succeed, every
target fingerprint computes, no apply call fails): the calls are exactly one
create per unmatched source entry followed by one delete per stale target
entry, and the provider afterwards holds the kept events plus the created
ones. -/
theorem run_ok_spec (c : ExchangeCalendar) (sevs : List ExchangeEvent) (p : GoogleProvider)
    (pr : List (Int × GEvent))
    (hlist : p.listFails = false)
    (hcf : p.createFails = [])
    (hwf : p.wf)
    (hpr : targetPairs p.events = .ok pr)
    (hnd : (keys pr).Nodup) :
    CalendarSync.run c (.ok sevs) p =
      { calls :=
          (unmatchedSource c sevs pr).map (fun x => createCallOf c x.2) ++
          (staleTarget c sevs pr).map (fun q => Call.delete .target q.2.id),
        provider := { p with
          events :=
            p.events.filter
              (fun e => !((staleTarget c sevs pr).any (fun x => x.2.id == e.id))) ++
            storedOf c (unmatchedSource c sevs pr) p.nextId,
          nextId := p.nextId + (unmatchedSource c sevs pr).length },
        outcome := .ok (),
        log := [] } := by
  have hT : CalendarSync.target_event_map p.events = .ok pr :=
    target_event_map_of_nodup hpr hnd
  have hS : (keys (CalendarSync.source_event_map c
      (sevs.filter (fun e => !e.is_all_day)))).Nodup :=
    nodup_keys_source_event_map c _
  have hok : ∀ x ∈ CalendarSync.source_event_map c (sevs.filter (fun e => !e.is_all_day)),
      hasKey pr x.1 = false → p.createFails.contains x.2.subject = false := by
    intro x _ _
    rw [hcf]
    rfl
  have hac := applyCreates_ok c
    (CalendarSync.source_event_map c (sevs.filter (fun e => !e.is_all_day))) pr p hS hok
  have hsnd : pr.map Prod.snd = p.events := targetPairs_snd hpr
  have hpres : ∀ x ∈ staleTarget c sevs pr,
      ∃ e ∈ p.events ++ storedOf c (unmatchedSource c sevs pr) p.nextId, e.id = x.2.id := by
    intro x hx
    have hxpr : x ∈ pr := List.mem_of_mem_filter hx
    have hxev : x.2 ∈ p.events := by
      rw [← hsnd]
      exact List.mem_map_of_mem Prod.snd hxpr
    exact ⟨x.2, List.mem_append_left _ hxev, rfl⟩
  have hndids : ((staleTarget c sevs pr).map (fun x => x.2.id)).Nodup := by
    have hsub : (staleTarget c sevs pr).Sublist pr := List.filter_sublist pr
    have hmapsub : ((staleTarget c sevs pr).map (fun x => x.2.id)).Sublist
        (pr.map (fun x => x.2.id)) := hsub.map _
    have hprids : pr.map (fun x => x.2.id) = p.events.map GEvent.id := by
      rw [← hsnd, List.map_map]
      rfl
    refine List.Nodup.sublist hmapsub ?_
    rw [hprids]
    exact hwf.1
  have had := applyDeletes_ok (staleTarget c sevs pr)
    { p with
      events := p.events ++ storedOf c (unmatchedSource c sevs pr) p.nextId,
      nextId := p.nextId + (unmatchedSource c sevs pr).length }
    hpres hndids
  have hstoredkeep : (storedOf c (unmatchedSource c sevs pr) p.nextId).filter
      (fun e => !((staleTarget c sevs pr).any (fun x => x.2.id == e.id))) =
      storedOf c (unmatchedSource c sevs pr) p.nextId := by
    refine List.filter_eq_self.mpr ?_
    intro e he
    have hid : p.nextId ≤ e.id := (mem_storedOf_id he).1
    have hall : (staleTarget c sevs pr).any (fun x => x.2.id == e.id) = false := by
      rw [List.any_eq_false]
      intro x hx
      have hxpr : x ∈ pr := List.mem_of_mem_filter hx
      have hxev : x.2 ∈ p.events := by
        rw [← hsnd]
        exact List.mem_map_of_mem Prod.snd hxpr
      have hlt : x.2.id < p.nextId := hwf.2 x.2 hxev
      simp only [beq_iff_eq]
      omega
    rw [hall]
    rfl
  rw [show CalendarSync.run c (.ok sevs) p =
    (match CalendarSync.target_event_map p.events with
      | .error err => { calls := [], provider := p, outcome := .error err, log := [] }
      | .ok target_events =>
        match applyCreates c (CalendarSync.source_event_map c
            (sevs.filter (fun e => !e.is_all_day))) target_events p with
        | (ccalls, p1, _, .error err) =>
          { calls := ccalls, provider := p1, outcome := .error err, log := [] }
        | (ccalls, p1, remaining, .ok _) =>
          match applyDeletes remaining p1 with
          | (dcalls, p2, outcome) =>
            { calls := ccalls ++ dcalls, provider := p2, outcome := outcome,
              log := [] }) from by
      rw [CalendarSync.run.eq_def]
      simp only [ExchangeCalendar.events, google_events_ok hlist]]
  rw [hT]
  simp only [hac]
  rw [show (CalendarSync.source_event_map c
      (sevs.filter (fun e => !e.is_all_day))).filter (fun x => !(hasKey pr x.1)) =
    unmatchedSource c sevs pr from rfl]
  rw [show pr.filter (fun q => !(hasKey (CalendarSync.source_event_map c
      (sevs.filter (fun e => !e.is_all_day))) q.1)) = staleTarget c sevs pr from rfl]
  simp only [had]
  simp only [List.filter_append, hstoredkeep]

theorem targetPairs_of_pairs {l : List (Int × GEvent)}
    (h : ∀ x ∈ l, GoogleCalendar.fingerprint x.2 = .ok x.1) :
    targetPairs (l.map Prod.snd) = .ok l := by
  induction l with
  | nil => rfl
  | cons x rest ih =>
    rw [List.map_cons, targetPairs, h x (List.mem_cons_self _ _),
      ih (fun y hy => h y (List.mem_cons_of_mem _ hy))]
    rfl

theorem targetPairs_append {l1 l2 : List GEvent} {pr1 pr2 : List (Int × GEvent)}
    (h1 : targetPairs l1 = .ok pr1) (h2 : targetPairs l2 = .ok pr2) :
    targetPairs (l1 ++ l2) = .ok (pr1 ++ pr2) := by
  induction l1 generalizing pr1 with
  | nil =>
    rw [targetPairs] at h1
    injection h1 with h1
    rw [← h1, List.nil_append, List.nil_append]
    exact h2
  | cons e rest ih =>
    rw [targetPairs] at h1
    cases hf : GoogleCalendar.fingerprint e with
    | error err => rw [hf] at h1; exact absurd h1 (by simp)
    | ok f =>
      rw [hf] at h1
      cases htp : targetPairs rest with
      | error err => rw [htp] at h1; exact absurd h1 (by simp [Except.map])
      | ok l =>
        rw [htp] at h1
        simp only [Except.map] at h1
        injection h1 with h1
        rw [List.cons_append, targetPairs, hf, ih htp, ← h1]
        rfl

theorem targetPairs_storedOf (c : ExchangeCalendar) (l : List (Int × ExchangeEvent)) (n : Nat)
    (hl : ∀ x ∈ l, c.fingerprint x.2 = x.1) :
    ∃ st, targetPairs (storedOf c l n) = .ok st ∧ keys st = keys l := by
  induction l generalizing n with
  | nil => exact ⟨[], rfl, rfl⟩
  | cons x rest ih =>
    obtain ⟨f, se⟩ := x
    obtain ⟨st, hst, hkeys⟩ := ih (n + 1) (fun y hy => hl y (List.mem_cons_of_mem _ hy))
    have hf : c.fingerprint se = f := hl (f, se) (List.mem_cons_self _ _)
    refine ⟨(f, { createdEventBody (se.start.astimezone c.tz) (se.end_.astimezone c.tz)
      se.subject (pyOrNone se.text_body) with id := n }) :: st, ?_, ?_⟩
    · rw [storedOf, targetPairs, fingerprint_created, hf, hst]
      rfl
    · simp only [keys, List.map_cons]
      exact congrArg (List.cons f) hkeys

theorem kept_events_eq (c : ExchangeCalendar) (sevs : List ExchangeEvent)
    {p : GoogleProvider} {pr : List (Int × GEvent)}
    (hwf : p.wf) (hpr : targetPairs p.events = .ok pr) :
    p.events.filter
      (fun e => !((staleTarget c sevs pr).any (fun x => x.2.id == e.id))) =
    (pr.filter (fun q => hasKey (CalendarSync.source_event_map c
      (sevs.filter (fun e => !e.is_all_day))) q.1)).map Prod.snd := by
  have hsnd := targetPairs_snd hpr
  conv_lhs => rw [← hsnd]
  rw [List.filter_map]
  refine congrArg _ (List.filter_congr (fun q hq => ?_))
  have hqev : q.2 ∈ p.events := by
    rw [← hsnd]
    exact List.mem_map_of_mem Prod.snd hq
  simp only [Function.comp]
  cases hS : hasKey (CalendarSync.source_event_map c
      (sevs.filter (fun e => !e.is_all_day))) q.1 with
  | true =>
    have hany : (staleTarget c sevs pr).any (fun x => x.2.id == q.2.id) = false := by
      rw [List.any_eq_false]
      intro x hx
      simp only [staleTarget] at hx
      obtain ⟨hxpr, hxprop⟩ := List.mem_filter.mp hx
      simp only [beq_iff_eq]
      intro hideq
      have hxev : x.2 ∈ p.events := by
        rw [← hsnd]
        exact List.mem_map_of_mem Prod.snd hxpr
      have hveq : x.2 = q.2 :=
        List.inj_on_of_nodup_map hwf.1 hxev hqev hideq
      have hfx := targetPairs_mem hpr hxpr
      have hfq := targetPairs_mem hpr hq
      rw [hveq, hfq] at hfx
      injection hfx with hfx
      rw [hfx] at hS
      rw [hS] at hxprop
      simp at hxprop
    rw [hany]
    rfl
  | false =>
    have hmem : q ∈ staleTarget c sevs pr := by
      simp only [staleTarget, List.mem_filter]
      exact ⟨hq, by rw [hS]; rfl⟩
    have hany : (staleTarget c sevs pr).any (fun x => x.2.id == q.2.id) = true :=
      List.any_eq_true.mpr ⟨q, hmem, beq_iff_eq.mpr rfl⟩
    rw [hany]
    rfl

/-- After a fully successful cycle the target provider state is well formed,
its fingerprints all compute, and its fingerprint set equals the source
map's key set. -/
theorem run_ok_post (c : ExchangeCalendar) (sevs : List ExchangeEvent) (p : GoogleProvider)
    (pr : List (Int × GEvent))
    (hlist : p.listFails = false)
    (hcf : p.createFails = [])
    (hwf : p.wf)
    (hpr : targetPairs p.events = .ok pr)
    (hnd : (keys pr).Nodup) :
    ∃ fpr, targetPairs (CalendarSync.run c (.ok sevs) p).provider.events = .ok fpr ∧
      (keys fpr).Nodup ∧
      (keys fpr).toFinset = (keys (CalendarSync.source_event_map c
        (sevs.filter (fun e => !e.is_all_day)))).toFinset ∧
      (CalendarSync.run c (.ok sevs) p).provider.wf ∧
      (CalendarSync.run c (.ok sevs) p).provider.listFails = false ∧
      (CalendarSync.run c (.ok sevs) p).provider.createFails = [] := by
  have hrun := run_ok_spec c sevs p pr hlist hcf hwf hpr hnd
  have hUS : ∀ x ∈ unmatchedSource c sevs pr, c.fingerprint x.2 = x.1 := by
    intro x hx
    simp only [unmatchedSource] at hx
    exact (mem_source_event_map (List.mem_of_mem_filter hx)).2
  obtain ⟨st, hst, hstkeys⟩ :=
    targetPairs_storedOf c (unmatchedSource c sevs pr) p.nextId hUS
  have hmp : targetPairs ((pr.filter (fun q => hasKey (CalendarSync.source_event_map c
      (sevs.filter (fun e => !e.is_all_day))) q.1)).map Prod.snd) =
      .ok (pr.filter (fun q => hasKey (CalendarSync.source_event_map c
      (sevs.filter (fun e => !e.is_all_day))) q.1)) :=
    targetPairs_of_pairs (fun x hx => targetPairs_mem hpr (List.mem_of_mem_filter hx))
  have hkept := kept_events_eq c sevs hwf hpr
  have hfin : targetPairs (p.events.filter
      (fun e => !((staleTarget c sevs pr).any (fun x => x.2.id == e.id))) ++
      storedOf c (unmatchedSource c sevs pr) p.nextId) =
      .ok ((pr.filter (fun q => hasKey (CalendarSync.source_event_map c
        (sevs.filter (fun e => !e.is_all_day))) q.1)) ++ st) := by
    rw [hkept]
    exact targetPairs_append hmp hst
  have hmkeys_sub : (keys (pr.filter (fun q => hasKey (CalendarSync.source_event_map c
      (sevs.filter (fun e => !e.is_all_day))) q.1))).Sublist (keys pr) :=
    (List.filter_sublist pr).map Prod.fst
  have hukeys_sub : (keys (unmatchedSource c sevs pr)).Sublist
      (keys (CalendarSync.source_event_map c (sevs.filter (fun e => !e.is_all_day)))) := by
    simp only [unmatchedSource, keys]
    exact (List.filter_sublist _).map Prod.fst
  have hndm : (keys (pr.filter (fun q => hasKey (CalendarSync.source_event_map c
      (sevs.filter (fun e => !e.is_all_day))) q.1))).Nodup := hnd.sublist hmkeys_sub
  have hndu : (keys (unmatchedSource c sevs pr)).Nodup :=
    (nodup_keys_source_event_map c _).sublist hukeys_sub
  have hdisj : ∀ k ∈ keys (pr.filter (fun q => hasKey (CalendarSync.source_event_map c
      (sevs.filter (fun e => !e.is_all_day))) q.1)),
      k ∉ keys (unmatchedSource c sevs pr) := by
    intro k hk hk'
    have hkpr : k ∈ keys pr := hmkeys_sub.subset hk
    simp only [keys, List.mem_map] at hk'
    obtain ⟨x, hxus, hxk⟩ := hk'
    simp only [unmatchedSource] at hxus
    have hxprop := (List.mem_filter.mp hxus).2
    rw [hxk] at hxprop
    rw [Bool.not_eq_true', hasKey_eq_false_iff] at hxprop
    exact hxprop hkpr
  have hsetmem : ∀ k, (k ∈ keys (pr.filter (fun q => hasKey (CalendarSync.source_event_map c
      (sevs.filter (fun e => !e.is_all_day))) q.1)) ∨
      k ∈ keys (unmatchedSource c sevs pr)) ↔
      k ∈ keys (CalendarSync.source_event_map c (sevs.filter (fun e => !e.is_all_day))) := by
    intro k
    constructor
    · rintro (hk | hk)
      · simp only [keys, List.mem_map] at hk
        obtain ⟨q, hq, hqk⟩ := hk
        have hprop := (List.mem_filter.mp hq).2
        rw [hqk] at hprop
        exact (hasKey_iff _ _).mp hprop
      · exact hukeys_sub.subset hk
    · intro hk
      cases hpk : hasKey pr k with
      | true =>
        left
        have hkpr : k ∈ keys pr := (hasKey_iff _ _).mp hpk
        simp only [keys, List.mem_map] at hkpr
        obtain ⟨q, hq, hqk⟩ := hkpr
        simp only [keys, List.mem_map]
        refine ⟨q, List.mem_filter.mpr ⟨hq, ?_⟩, hqk⟩
        rw [hqk]
        exact (hasKey_iff _ _).mpr hk
      | false =>
        right
        simp only [keys, List.mem_map] at hk
        obtain ⟨x, hx, hxk⟩ := hk
        simp only [unmatchedSource, keys, List.mem_map]
        refine ⟨x, List.mem_filter.mpr ⟨hx, ?_⟩, hxk⟩
        rw [hxk, hpk]
        rfl
  have hwfpost : GoogleProvider.wf { p with
      events :=
        p.events.filter
          (fun e => !((staleTarget c sevs pr).any (fun x => x.2.id == e.id))) ++
        storedOf c (unmatchedSource c sevs pr) p.nextId,
      nextId := p.nextId + (unmatchedSource c sevs pr).length } := by
    constructor
    · rw [List.map_append, List.nodup_append]
      refine ⟨hwf.1.sublist ((List.filter_sublist _).map _), ?_, ?_⟩
      · rw [storedOf_ids]
        exact List.nodup_range' _ _ _ (by norm_num)
      · intro a ha hb
        rw [List.mem_map] at ha
        obtain ⟨e, he, hea⟩ := ha
        have h1 : e.id < p.nextId := hwf.2 e (List.mem_of_mem_filter he)
        rw [storedOf_ids] at hb
        have h2 := (List.mem_range'_1.mp hb).1
        omega
    · intro e he
      show e.id < p.nextId + (unmatchedSource c sevs pr).length
      rw [List.mem_append] at he
      rcases he with he | he
      · have := hwf.2 e (List.mem_of_mem_filter he)
        omega
      · exact (mem_storedOf_id he).2
  refine ⟨(pr.filter (fun q => hasKey (CalendarSync.source_event_map c
    (sevs.filter (fun e => !e.is_all_day))) q.1)) ++ st, ?_, ?_, ?_, ?_, ?_, ?_⟩
  · rw [hrun]
    exact hfin
  · rw [keys_append, hstkeys, List.nodup_append]
    exact ⟨hndm, hndu, hdisj⟩
  · rw [keys_append, hstkeys]
    refine Finset.ext (fun k => ?_)
    simp only [List.mem_toFinset, List.mem_append]
    exact hsetmem k
  · rw [hrun]
    exact hwfpost
  · rw [hrun]
    exact hlist
  · rw [hrun]
    exact hcf

/-! ### Concrete fixtures used by witnesses and counterexamples -/

def tzW : Tz := { offset := 0 }

def srcW : ExchangeCalendar := { tz := tzW }

def timeW (n : Int) : Time := { stamp := n, tz := tzW }

def evStandup : ExchangeEvent :=
  { start := timeW 600, end_ := timeW 660, subject := "Standup",
    text_body := none, is_all_day := false }

def evReview : ExchangeEvent :=
  { start := timeW 840, end_ := timeW 900, subject := "Review",
    text_body := some "notes", is_all_day := false }

def gStandup : GEvent :=
  { id := 3, start := { dateTime := some "600@0" }, end_ := { dateTime := some "660@0" },
    summary := some "Standup", description := none }

def gOld : GEvent :=
  { id := 4, start := { dateTime := some "100@0" }, end_ := { dateTime := some "130@0" },
    summary := some "Old", description := none }

def pW : GoogleProvider :=
  { events := [gStandup, gOld], nextId := 10, listFails := false, createFails := [] }

def prW : List (Int × GEvent) :=
  [(pyHash "600@0|660@0|Standup|", gStandup), (pyHash "100@0|130@0|Old|", gOld)]

/-! ### The claims -/

/-- **C1.** In a cycle whose two fetches succeed, whose target fingerprints
all compute, and whose apply calls all succeed, `run` issues exactly one
create call for each source-map entry whose fingerprint is not in the target
map — carrying that source event's start and end (re-expressed in the source
timezone), subject and body — then exactly one delete call for each target
map entry whose fingerprint is not in the source map, addressed by that
target event's id, and no other call (in particular none for a fingerprint
present in both maps); afterwards the target's fingerprint set equals the
source map's key set. -/
theorem sync_cycle_convergence (c : ExchangeCalendar) (sevs : List ExchangeEvent)
    (p : GoogleProvider) (pr : List (Int × GEvent))
    (hlist : p.listFails = false)
    (hcf : p.createFails = [])
    (hwf : p.wf)
    (hpr : targetPairs p.events = .ok pr)
    (hnd : (keys pr).Nodup) :
    (CalendarSync.run c (.ok sevs) p).calls =
      (unmatchedSource c sevs pr).map (fun x => createCallOf c x.2) ++
      (staleTarget c sevs pr).map (fun q => Call.delete .target q.2.id) ∧
    (CalendarSync.run c (.ok sevs) p).outcome = .ok () ∧
    ∃ fpr, targetPairs (CalendarSync.run c (.ok sevs) p).provider.events = .ok fpr ∧
      (keys fpr).toFinset = (keys (CalendarSync.source_event_map c
        (sevs.filter (fun e => !e.is_all_day)))).toFinset := by
  have hrun := run_ok_spec c sevs p pr hlist hcf hwf hpr hnd
  obtain ⟨fpr, h1, _, h3, _, _, _⟩ := run_ok_post c sevs p pr hlist hcf hwf hpr hnd
  exact ⟨by rw [hrun], by rw [hrun], fpr, h1, h3⟩

set_option maxRecDepth 100000 in
theorem sync_cycle_convergence_witness :
    (pW.listFails = false ∧ pW.createFails = [] ∧ pW.wf ∧
      targetPairs pW.events = .ok prW ∧ (keys prW).Nodup) ∧
    ((CalendarSync.run srcW (.ok [evStandup, evReview]) pW).calls =
      (unmatchedSource srcW [evStandup, evReview] prW).map
        (fun x => createCallOf srcW x.2) ++
      (staleTarget srcW [evStandup, evReview] prW).map
        (fun q => Call.delete .target q.2.id) ∧
    (CalendarSync.run srcW (.ok [evStandup, evReview]) pW).outcome = .ok () ∧
    ∃ fpr, targetPairs
        (CalendarSync.run srcW (.ok [evStandup, evReview]) pW).provider.events =
        .ok fpr ∧
      (keys fpr).toFinset = (keys (CalendarSync.source_event_map srcW
        ([evStandup, evReview].filter (fun e => !e.is_all_day)))).toFinset) :=
  ⟨⟨rfl, rfl, by decide, by decide, by decide⟩,
    sync_cycle_convergence srcW [evStandup, evReview] pW prW rfl rfl
      (by decide) (by decide) (by decide)⟩

/-- **C2.** In every cycle in which the source list fetch or the target list
fetch fails, `run` issues zero create and zero delete calls and leaves the
provider state untouched, and the failure surfaces: the cycle ends with a
propagated exception (reported by the thread's excepthook), and a failed
source fetch is additionally reported through `LOGGER.error`. -/
theorem fetch_failure_isolates_cycle (c : ExchangeCalendar)
    (sourceFetch : Except String (List ExchangeEvent)) (p : GoogleProvider)
    (hfail : (∃ msg, sourceFetch = .error msg) ∨ p.listFails = true) :
    (CalendarSync.run c sourceFetch p).calls = [] ∧
    (CalendarSync.run c sourceFetch p).provider = p ∧
    (∃ err, (CalendarSync.run c sourceFetch p).outcome = .error err) ∧
    ((∃ msg, sourceFetch = .error msg) →
      (CalendarSync.run c sourceFetch p).log = ["Failed to fetch Office 365 events"]) := by
  cases sourceFetch with
  | error msg =>
    exact ⟨rfl, rfl, ⟨.typeError, rfl⟩, fun _ => rfl⟩
  | ok sevs =>
    rcases hfail with ⟨msg, hmsg⟩ | hlist
    · exact absurd hmsg (by simp)
    · have hge : GoogleCalendar.events p = .error (.httpError "list") := by
        simp [GoogleCalendar.events, GoogleProvider.listCall, hlist]
      have hrun : CalendarSync.run c (.ok sevs) p =
          { calls := [], provider := p, outcome := .error (.httpError "list"),
            log := [] } := by
        rw [CalendarSync.run.eq_def]
        simp only [ExchangeCalendar.events, hge]
      refine ⟨by rw [hrun], by rw [hrun], ⟨.httpError "list", by rw [hrun]⟩, ?_⟩
      rintro ⟨msg, hmsg⟩
      exact absurd hmsg (by simp)

theorem fetch_failure_isolates_cycle_witness :
    ((∃ msg, (Except.error "network down" :
        Except String (List ExchangeEvent)) = .error msg) ∨ pW.listFails = true) ∧
    ((CalendarSync.run srcW (.error "network down") pW).calls = [] ∧
    (CalendarSync.run srcW (.error "network down") pW).provider = pW ∧
    (∃ err, (CalendarSync.run srcW (.error "network down") pW).outcome = .error err) ∧
    ((∃ msg, (Except.error "network down" :
        Except String (List ExchangeEvent)) = .error msg) →
      (CalendarSync.run srcW (.error "network down") pW).log =
        ["Failed to fetch Office 365 events"])) :=
  ⟨Or.inl ⟨"network down", rfl⟩,
    fetch_failure_isolates_cycle srcW (.error "network down") pW
      (Or.inl ⟨"network down", rfl⟩)⟩

/-- **C3.** Claimed: a fetch failure aborts only the current cycle and the
scheduler executes the next cycle normally.  In the code this fails: on a
source fetch failure `ExchangeCalendar.events` logs and returns `None`, but
`event_map` then iterates that `None` and raises `TypeError` (the
`if source_events == None: return` guard on line 201 is unreachable);
`schedule`'s `periodic` and `sched.scheduler.run` do not catch the raise, so
the periodic loop terminates and the second cycle never executes: here, of
two planned cycles with the first one's source fetch failing, exactly one
executes. -/
theorem fetch_failure_kills_scheduler_loop :
    (CalendarSync.run srcW (.error "network unreachable") pW).calls = [] ∧
    (CalendarSync.run srcW (.error "network unreachable") pW).log =
      ["Failed to fetch Office 365 events"] ∧
    (CalendarSync.run srcW (.error "network unreachable") pW).outcome =
      .error .typeError ∧
    executedCycleCount
      [(CalendarSync.run srcW (.error "network unreachable") pW).outcome,
       (CalendarSync.run srcW (.ok [evStandup]) pW).outcome] = 1 :=
  ⟨rfl, rfl, rfl, rfl⟩

def pFailW : GoogleProvider :=
  { events := [gOld], nextId := 10, listFails := false, createFails := ["Standup"] }

set_option maxRecDepth 400000 in
/-- **C4 (counterexample).** Claimed: when one create fails, the remaining
diff entries are still processed.  Concretely: the source map is
{Standup, Review}, the target holds only the stale event `gOld`, and the
insert for "Standup" fails after retries.  The cycle's only call is the
failed create for Standup — the create for Review is never issued and the
stale event is never deleted — and `run` ends in the propagated
`HttpError`. -/
theorem create_failure_aborts_cycle_cx :
    (CalendarSync.run srcW (.ok [evStandup, evReview]) pFailW).calls =
      [createCallOf srcW evStandup] ∧
    (CalendarSync.run srcW (.ok [evStandup, evReview]) pFailW).outcome =
      .error (.httpError "insert") ∧
    createCallOf srcW evReview ∉
      (CalendarSync.run srcW (.ok [evStandup, evReview]) pFailW).calls ∧
    ∀ eid, Call.delete .target eid ∉
      (CalendarSync.run srcW (.ok [evStandup, evReview]) pFailW).calls := by
  refine ⟨rfl, rfl, by decide, ?_⟩
  intro eid h
  have hc : (CalendarSync.run srcW (.ok [evStandup, evReview]) pFailW).calls =
      [createCallOf srcW evStandup] := rfl
  rw [hc] at h
  simp [createCallOf] at h

/-- **C4 (amended).** When the create call for one diff entry fails, the
exception propagates immediately: the cycle's calls are exactly the creates
for the unmatched entries before it plus the failing create itself — the
remaining unmatched entries are not created, no delete is issued — and `run`
ends in the propagated error (reported via the thread's excepthook), instead
of the remaining diff entries still being processed. -/
theorem create_failure_aborts_remaining_diff (c : ExchangeCalendar)
    (sevs : List ExchangeEvent) (p : GoogleProvider) (pr : List (Int × GEvent))
    (hlist : p.listFails = false)
    (hpr : targetPairs p.events = .ok pr)
    (hnd : (keys pr).Nodup)
    {pre : List (Int × ExchangeEvent)} {fe : Int × ExchangeEvent}
    {post : List (Int × ExchangeEvent)}
    (hsplit : unmatchedSource c sevs pr = pre ++ fe :: post)
    (hpre : ∀ y ∈ pre, p.createFails.contains y.2.subject = false)
    (hfe : p.createFails.contains fe.2.subject = true) :
    (CalendarSync.run c (.ok sevs) p).calls =
      pre.map (fun x => createCallOf c x.2) ++ [createCallOf c fe.2] ∧
    (CalendarSync.run c (.ok sevs) p).outcome = .error (.httpError "insert") := by
  have hT : CalendarSync.target_event_map p.events = .ok pr :=
    target_event_map_of_nodup hpr hnd
  obtain ⟨h1, h2⟩ := applyCreates_fail c
    (CalendarSync.source_event_map c (sevs.filter (fun e => !e.is_all_day))) pr p
    (nodup_keys_source_event_map c _)
    (by simpa [unmatchedSource] using hsplit) hpre hfe
  rcases ht : applyCreates c
      (CalendarSync.source_event_map c (sevs.filter (fun e => !e.is_all_day))) pr p
    with ⟨ccalls, p1, rem, outcome⟩
  rw [ht] at h1 h2
  simp only at h1 h2
  subst h2
  have hrun : CalendarSync.run c (.ok sevs) p =
      { calls := ccalls, provider := p1, outcome := .error (.httpError "insert"),
        log := [] } := by
    rw [CalendarSync.run.eq_def]
    simp only [ExchangeCalendar.events, google_events_ok hlist, hT, ht]
  exact ⟨by rw [hrun]; exact h1, by rw [hrun]⟩

def prFailW : List (Int × GEvent) :=
  [(pyHash "100@0|130@0|Old|", gOld)]

set_option maxRecDepth 400000 in
theorem create_failure_aborts_remaining_diff_witness :
    (pFailW.listFails = false ∧
      targetPairs pFailW.events = .ok prFailW ∧ (keys prFailW).Nodup ∧
      unmatchedSource srcW [evStandup, evReview] prFailW =
        [] ++ (ExchangeCalendar.fingerprint srcW evStandup, evStandup) ::
          [(ExchangeCalendar.fingerprint srcW evReview, evReview)] ∧
      (∀ y ∈ ([] : List (Int × ExchangeEvent)),
        pFailW.createFails.contains y.2.subject = false) ∧
      pFailW.createFails.contains
        (ExchangeCalendar.fingerprint srcW evStandup, evStandup).2.subject = true) ∧
    ((CalendarSync.run srcW (.ok [evStandup, evReview]) pFailW).calls =
      ([] : List (Int × ExchangeEvent)).map (fun x => createCallOf srcW x.2) ++
        [createCallOf srcW (ExchangeCalendar.fingerprint srcW evStandup, evStandup).2] ∧
    (CalendarSync.run srcW (.ok [evStandup, evReview]) pFailW).outcome =
      .error (.httpError "insert")) :=
  ⟨⟨rfl, by decide, by decide, by decide, by decide, by decide⟩,
    @create_failure_aborts_remaining_diff srcW [evStandup, evReview] pFailW prFailW
      rfl (by decide) (by decide)
      [] (ExchangeCalendar.fingerprint srcW evStandup, evStandup)
      [(ExchangeCalendar.fingerprint srcW evReview, evReview)]
      (by decide) (by decide) (by decide)⟩

/-- **C5.** Claimed: deleting an already-removed event succeeds as a no-op
and is never fatal.  `GoogleCalendar.delete` has no handling at all: it posts
the delete and lets `execute` raise — and the Google Calendar API reports an
already-deleted event as an error (410 Gone) that `num_retries` does not
retry.  Concretely, deleting `gOld` from a provider that no longer holds it
raises instead of succeeding. -/
theorem delete_already_removed_raises :
    GoogleCalendar.delete
      { events := [gStandup], nextId := 10, listFails := false, createFails := [] }
      gOld = .error (.httpError "gone") ∧
    ∀ q, GoogleCalendar.delete
      { events := [gStandup], nextId := 10, listFails := false, createFails := [] }
      gOld ≠ .ok q := by
  refine ⟨rfl, ?_⟩
  intro q h
  have hd : GoogleCalendar.delete
      { events := [gStandup], nextId := 10, listFails := false, createFails := [] }
      gOld = .error (.httpError "gone") := rfl
  rw [hd] at h
  exact absurd h (by simp)

/-- **C6.** Running the cycle twice in succession with the same source fetch
and no external target changes produces zero create and zero delete calls on
the second run; the fingerprint of each event created at the target during
the first run equals the Exchange fingerprint of the source event it was
created from. -/
theorem sync_idempotent_second_cycle (c : ExchangeCalendar) (sevs : List ExchangeEvent)
    (p : GoogleProvider) (pr : List (Int × GEvent))
    (hlist : p.listFails = false)
    (hcf : p.createFails = [])
    (hwf : p.wf)
    (hpr : targetPairs p.events = .ok pr)
    (hnd : (keys pr).Nodup) :
    (CalendarSync.run c (.ok sevs) (CalendarSync.run c (.ok sevs) p).provider).calls
      = [] ∧
    (∀ se n, GoogleCalendar.fingerprint
        { createdEventBody (se.start.astimezone c.tz) (se.end_.astimezone c.tz)
            se.subject (pyOrNone se.text_body) with id := n } =
      .ok (ExchangeCalendar.fingerprint c se)) := by
  obtain ⟨fpr, hfpr, hndf, hfinset, hwf2, hlist2, hcf2⟩ :=
    run_ok_post c sevs p pr hlist hcf hwf hpr hnd
  have hrun2 := run_ok_spec c sevs (CalendarSync.run c (.ok sevs) p).provider fpr
    hlist2 hcf2 hwf2 hfpr hndf
  have hU : unmatchedSource c sevs fpr = [] := by
    simp only [unmatchedSource]
    rw [List.filter_eq_nil_iff]
    intro x hx
    have hxk : x.1 ∈ keys (CalendarSync.source_event_map c
        (sevs.filter (fun e => !e.is_all_day))) := List.mem_map_of_mem Prod.fst hx
    have hxf : x.1 ∈ keys fpr := by
      have h1 := List.mem_toFinset.mpr hxk
      rw [← hfinset] at h1
      exact List.mem_toFinset.mp h1
    simp [(hasKey_iff fpr x.1).mpr hxf]
  have hR : staleTarget c sevs fpr = [] := by
    simp only [staleTarget]
    rw [List.filter_eq_nil_iff]
    intro q hq
    have hqk : q.1 ∈ keys fpr := List.mem_map_of_mem Prod.fst hq
    have hqs : q.1 ∈ keys (CalendarSync.source_event_map c
        (sevs.filter (fun e => !e.is_all_day))) := by
      have h1 := List.mem_toFinset.mpr hqk
      rw [hfinset] at h1
      exact List.mem_toFinset.mp h1
    simp [(hasKey_iff _ _).mpr hqs]
  refine ⟨?_, fun se n => fingerprint_created c se n⟩
  rw [hrun2]
  show (unmatchedSource c sevs fpr).map (fun x => createCallOf c x.2) ++
      (staleTarget c sevs fpr).map (fun q => Call.delete .target q.2.id) = []
  rw [hU, hR]
  rfl

set_option maxRecDepth 400000 in
theorem sync_idempotent_second_cycle_witness :
    (pW.listFails = false ∧ pW.createFails = [] ∧ pW.wf ∧
      targetPairs pW.events = .ok prW ∧ (keys prW).Nodup) ∧
    ((CalendarSync.run srcW (.ok [evStandup, evReview])
        (CalendarSync.run srcW (.ok [evStandup, evReview]) pW).provider).calls = [] ∧
    (∀ se n, GoogleCalendar.fingerprint
        { createdEventBody (se.start.astimezone srcW.tz) (se.end_.astimezone srcW.tz)
            se.subject (pyOrNone se.text_body) with id := n } =
      .ok (ExchangeCalendar.fingerprint srcW se))) :=
  ⟨⟨rfl, rfl, by decide, by decide, by decide⟩,
    sync_idempotent_second_cycle srcW [evStandup, evReview] pW prW rfl rfl
      (by decide) (by decide) (by decide)⟩

def evPipeA : ExchangeEvent :=
  { start := timeW 600, end_ := timeW 660, subject := "a|b",
    text_body := some "", is_all_day := false }

def evPipeB : ExchangeEvent :=
  { start := timeW 600, end_ := timeW 660, subject := "a",
    text_body := some "b|", is_all_day := false }

set_option maxRecDepth 400000 in
/-- **C7 (counterexample).** Claimed: fingerprints differ whenever any one of
start, end, subject or body differs.  The fingerprint hashes the `'|'`-join
of the four fields, and that join is not injective: the event with subject
`"a|b"` and empty body and the event with subject `"a"` and body `"b|"` (same
times) produce the same joined string, hence the same fingerprint, although
their subjects (and bodies) differ. -/
theorem fingerprint_collision_cx :
    ExchangeCalendar.fingerprint srcW evPipeA = ExchangeCalendar.fingerprint srcW evPipeB ∧
    evPipeA.subject ≠ evPipeB.subject ∧ evPipeA.text_body ≠ evPipeB.text_body :=
  ⟨rfl, by decide, by decide⟩

/-- **C7 (amended).** Both fingerprint functions are deterministic pure
functions of exactly the four semantic fields: repeated application to an
unchanged event gives the same value, and two events agreeing on start, end,
subject and body (resp. `start.dateTime`, `end.dateTime`, `summary`,
`description`) have equal fingerprints even if they differ elsewhere.  The
converse discrimination direction of the claim is false (join collisions, and
`hash` itself may collide). -/
theorem fingerprint_deterministic_four_fields (c : ExchangeCalendar)
    (e1 e2 : ExchangeEvent) (g1 g2 : GEvent)
    (hs : e1.start = e2.start) (hend : e1.end_ = e2.end_)
    (hsub : e1.subject = e2.subject) (hb : e1.text_body = e2.text_body)
    (hgs : g1.start = g2.start) (hge : g1.end_ = g2.end_)
    (hgsu : g1.summary = g2.summary) (hgd : g1.description = g2.description) :
    ExchangeCalendar.fingerprint c e1 = ExchangeCalendar.fingerprint c e2 ∧
    GoogleCalendar.fingerprint g1 = GoogleCalendar.fingerprint g2 := by
  constructor
  · unfold ExchangeCalendar.fingerprint
    rw [hs, hend, hsub, hb]
  · unfold GoogleCalendar.fingerprint
    rw [hgs, hge, hgsu, hgd]

theorem fingerprint_deterministic_four_fields_witness :
    (evStandup.start = { evStandup with is_all_day := true }.start ∧
      evStandup.end_ = { evStandup with is_all_day := true }.end_ ∧
      evStandup.subject = { evStandup with is_all_day := true }.subject ∧
      evStandup.text_body = { evStandup with is_all_day := true }.text_body ∧
      gStandup.start = { gStandup with id := 99 }.start ∧
      gStandup.end_ = { gStandup with id := 99 }.end_ ∧
      gStandup.summary = { gStandup with id := 99 }.summary ∧
      gStandup.description = { gStandup with id := 99 }.description) ∧
    (ExchangeCalendar.fingerprint srcW evStandup =
      ExchangeCalendar.fingerprint srcW { evStandup with is_all_day := true } ∧
    GoogleCalendar.fingerprint gStandup =
      GoogleCalendar.fingerprint { gStandup with id := 99 }) :=
  ⟨⟨rfl, rfl, rfl, rfl, rfl, rfl, rfl, rfl⟩,
    fingerprint_deterministic_four_fields srcW evStandup
      { evStandup with is_all_day := true } gStandup { gStandup with id := 99 }
      rfl rfl rfl rfl rfl rfl rfl rfl⟩

/-- **C8.** No two `run()` cycles ever overlap: the scheduler's single
worker thread executes the queue sequentially, so each cycle starts no
earlier than the previous one finishes; and since `periodic` enters the next
occurrence at its own start time plus the interval, a cycle that overruns the
interval is followed immediately — the next start equals the previous finish
whenever the previous duration reaches the interval. -/
theorem scheduler_cycles_never_overlap (interval t0 : Nat) (ds : List Nat) :
    List.Chain' (fun a b => a.2 ≤ b.1 ∧ (a.1 + interval ≤ a.2 → b.1 = a.2))
      (cycleSpans interval t0 ds) := by
  induction ds generalizing t0 with
  | nil => simp [cycleSpans]
  | cons d ds ih =>
    cases ds with
    | nil => simp [cycleSpans]
    | cons d2 ds2 =>
      rw [cycleSpans, cycleSpans, List.chain'_cons]
      constructor
      · exact ⟨le_max_left _ _, fun h => max_eq_left h⟩
      · exact ih _

theorem applyCreates_recipient (c : ExchangeCalendar) :
    ∀ (entries : List (Int × ExchangeEvent)) (tmap : List (Int × GEvent))
      (p : GoogleProvider), ∀ call ∈ (applyCreates c entries tmap p).1,
      call.recipient = Role.target := by
  intro entries
  induction entries with
  | nil =>
    intro tmap p call h
    simp [applyCreates] at h
  | cons x rest ih =>
    obtain ⟨f, se⟩ := x
    intro tmap p call h
    cases hk : hasKey tmap f with
    | true =>
      simp only [applyCreates, if_pos hk] at h
      exact ih _ _ call h
    | false =>
      have hnotc : ¬(hasKey tmap f = true) := by simp [hk]
      cases hc : GoogleCalendar.create p (se.start.astimezone c.tz)
          (se.end_.astimezone c.tz) se.subject (pyOrNone se.text_body) with
      | error err =>
        simp only [applyCreates, if_neg hnotc, hc] at h
        rw [List.mem_singleton] at h
        subst h
        rfl
      | ok p2 =>
        rcases ht : applyCreates c rest tmap p2 with ⟨calls2, p3, t3, o2⟩
        simp only [applyCreates, if_neg hnotc, hc, ht] at h
        rcases List.mem_cons.mp h with rfl | hmem
        · rfl
        · exact ih tmap p2 call (by rw [ht]; exact hmem)

theorem applyDeletes_recipient :
    ∀ (entries : List (Int × GEvent)) (p : GoogleProvider),
      ∀ call ∈ (applyDeletes entries p).1, call.recipient = Role.target := by
  intro entries
  induction entries with
  | nil =>
    intro p call h
    simp [applyDeletes] at h
  | cons x rest ih =>
    obtain ⟨f, te⟩ := x
    intro p call h
    cases hd : GoogleCalendar.delete p te with
    | error err =>
      simp only [applyDeletes, hd] at h
      rw [List.mem_singleton] at h
      subst h
      rfl
    | ok p2 =>
      rcases ht : applyDeletes rest p2 with ⟨calls2, p3, o2⟩
      simp only [applyDeletes, hd, ht] at h
      rcases List.mem_cons.mp h with rfl | hmem
      · rfl
      · exact ih p2 call (by rw [ht]; exact hmem)

/-- **C9.** The engine never mutates the source: every create and delete call
any `run` cycle issues is addressed to the target calendar (the model's
`ExchangeCalendar`, like the class in the code, has no create or delete
operation at all, and `run` reads the source fetch result without writing
anything back). -/
theorem no_call_ever_targets_source (c : ExchangeCalendar)
    (sourceFetch : Except String (List ExchangeEvent)) (p : GoogleProvider) :
    ∀ call ∈ (CalendarSync.run c sourceFetch p).calls,
      call.recipient = Role.target := by
  intro call h
  cases hsf : ExchangeCalendar.events sourceFetch with
  | none =>
    rw [CalendarSync.run.eq_def] at h
    simp only [hsf] at h
    simp at h
  | some sevs =>
    cases hge : GoogleCalendar.events p with
    | error err =>
      rw [CalendarSync.run.eq_def] at h
      simp only [hsf, hge] at h
      simp at h
    | ok tevs =>
      cases htm : CalendarSync.target_event_map tevs with
      | error err =>
        rw [CalendarSync.run.eq_def] at h
        simp only [hsf, hge, htm] at h
        simp at h
      | ok tmap =>
        rcases hac : applyCreates c (CalendarSync.source_event_map c sevs) tmap p
          with ⟨ccalls, p1, rem, oc⟩
        cases oc with
        | error err =>
          rw [CalendarSync.run.eq_def] at h
          simp only [hsf, hge, htm, hac] at h
          exact applyCreates_recipient c _ _ _ call (by rw [hac]; exact h)
        | ok u =>
          cases u
          rcases had : applyDeletes rem p1 with ⟨dcalls, p2, od⟩
          rw [CalendarSync.run.eq_def] at h
          simp only [hsf, hge, htm, hac, had] at h
          rcases List.mem_append.mp h with hmem | hmem
          · exact applyCreates_recipient c _ _ _ call (by rw [hac]; exact hmem)
          · exact applyDeletes_recipient _ _ call (by rw [had]; exact hmem)

set_option maxRecDepth 400000 in
theorem no_call_ever_targets_source_witness :
    createCallOf srcW evReview ∈
      (CalendarSync.run srcW (.ok [evStandup, evReview]) pW).calls ∧
    (createCallOf srcW evReview).recipient = Role.target :=
  ⟨by decide, no_call_ever_targets_source srcW (.ok [evStandup, evReview]) pW
    (createCallOf srcW evReview) (by decide)⟩

def gAllDay : GEvent :=
  { id := 5, start := { dateTime := none }, end_ := { dateTime := none },
    summary := some "Holiday", description := none }

def evAllDay : ExchangeEvent :=
  { start := timeW 0, end_ := timeW 1440, subject := "Holiday",
    text_body := none, is_all_day := true }

def pAllDayW : GoogleProvider :=
  { events := [gStandup, gAllDay], nextId := 10, listFails := false, createFails := [] }

/-- **C10.** The target-side fingerprint is partial at the public interface:
for a Google event whose start or end carries no `dateTime` (an all-day
event), `GoogleCalendar.fingerprint` raises `TypeError`; the Google `events`
fetch does not filter all-day events (only the Exchange fetch filters
`is_all_day`), so a single all-day event on the target makes the cycle's
target `event_map` construction — and hence `run` — raise instead of
returning a map. -/
theorem all_day_target_event_raises (c : ExchangeCalendar)
    (sevs xevs : List ExchangeEvent) (e : GEvent) (evs : List GEvent)
    (p : GoogleProvider)
    (hmem : e ∈ evs)
    (hallday : e.start.dateTime = none ∨ e.end_.dateTime = none)
    (hp : p.events = evs) (hlist : p.listFails = false) :
    GoogleCalendar.fingerprint e = .error .typeError ∧
    GoogleCalendar.events p = .ok evs ∧
    ExchangeCalendar.events (.ok xevs) = some (xevs.filter (fun x => !x.is_all_day)) ∧
    CalendarSync.target_event_map evs = .error .typeError ∧
    (CalendarSync.run c (.ok sevs) p).calls = [] ∧
    (CalendarSync.run c (.ok sevs) p).outcome = .error .typeError := by
  have hgfp : GoogleCalendar.fingerprint e = .error .typeError := by
    rcases hs : e.start.dateTime with _ | s
    · unfold GoogleCalendar.fingerprint
      rw [hs]
    · rcases hallday with h | h
      · rw [hs] at h
        exact absurd h (by simp)
      · unfold GoogleCalendar.fingerprint
        rw [hs, h]
  have hge2 : GoogleCalendar.events p = .ok evs := by
    rw [google_events_ok hlist, hp]
  have htm : CalendarSync.target_event_map evs = .error .typeError :=
    target_event_map_error hmem hgfp
  have hrun : CalendarSync.run c (.ok sevs) p =
      { calls := [], provider := p, outcome := .error .typeError, log := [] } := by
    rw [CalendarSync.run.eq_def]
    simp only [ExchangeCalendar.events, hge2, htm]
  exact ⟨hgfp, hge2, rfl, htm, by rw [hrun], by rw [hrun]⟩

theorem all_day_target_event_raises_witness :
    (gAllDay ∈ [gStandup, gAllDay] ∧
      (gAllDay.start.dateTime = none ∨ gAllDay.end_.dateTime = none) ∧
      pAllDayW.events = [gStandup, gAllDay] ∧ pAllDayW.listFails = false) ∧
    (GoogleCalendar.fingerprint gAllDay = .error .typeError ∧
    GoogleCalendar.events pAllDayW = .ok [gStandup, gAllDay] ∧
    ExchangeCalendar.events (.ok [evStandup, evAllDay]) =
      some ([evStandup, evAllDay].filter (fun x => !x.is_all_day)) ∧
    CalendarSync.target_event_map [gStandup, gAllDay] = .error .typeError ∧
    (CalendarSync.run srcW (.ok [evStandup]) pAllDayW).calls = [] ∧
    (CalendarSync.run srcW (.ok [evStandup]) pAllDayW).outcome = .error .typeError) :=
  ⟨⟨by decide, Or.inl rfl, rfl, rfl⟩,
    all_day_target_event_raises srcW [evStandup] [evStandup, evAllDay] gAllDay
      [gStandup, gAllDay] pAllDayW (by decide) (Or.inl rfl) rfl rfl⟩

end CalendarSyncModel
